import Mathlib

/-!
Shallow embedding of the `gapstr` gap-buffer library and verification of its
specification claims.

The embedding models:
* `GapText` (src/lib.rs) — the UTF-8 byte gap buffer.  Bytes are `Nat`s,
  `Vec<u8>` is a `List Nat` plus an explicit `cap` field modelling the vector's
  capacity (spare capacity beyond `buf.length` is uninitialized and not
  represented).  The `gap : Range<usize>` field becomes the pair
  `gap_start`/`gap_end`.
* `RawGapBuf` (src/raw_gap_buf/raw.rs) — the generic raw buffer, for a non-ZST
  element type.  The single allocation is `mem : List Nat`; the `start`/`end`
  fat pointers become `start_len` (prefix length) and `gap_len`, with the end
  slice occupying the remainder of `mem`.
* `Drain` (src/gap_buf/drain.rs) — the draining iterator; the remaining slice
  is a `List Nat`, and every operation additionally reports the list of
  elements whose destructor it ran.

Rust `Result<(), GapError>` becomes `Res GapText`; aborts from failed index
checks, slice-bound violations, `assert!`s and arithmetic underflow are
modelled by the `Res.fatal` / `Option.none` outcome.  Rust ranges are passed
as explicit `start`/`stop` endpoint pairs (a `RangeFull` caller passes
`0`/`len`).
-/

namespace GapStr

/-- `l[a..b]` — Rust slice indexing; `none` models the bounds-check abort. -/
def listSlice (l : List Nat) (a b : Nat) : Option (List Nat) :=
  if a ≤ b ∧ b ≤ l.length then some ((l.drop a).take (b - a)) else none

/-- `l[i..i + s.length].copy_from_slice(s)` — `none` models the abort when the
destination range does not fit the list. -/
def writeRange (l : List Nat) (i : Nat) (s : List Nat) : Option (List Nat) :=
  if i + s.length ≤ l.length then some (l.take i ++ s ++ l.drop (i + s.length)) else none

/-- `seg.rotate_right(k)` — Rust panics when `k` exceeds the slice length. -/
def rotateRightSeg (l : List Nat) (k : Nat) : Option (List Nat) :=
  if k ≤ l.length then some (l.drop (l.length - k) ++ l.take (l.length - k)) else none

/-- `seg.rotate_left(k)` — Rust panics when `k` exceeds the slice length. -/
def rotateLeftSeg (l : List Nat) (k : Nat) : Option (List Nat) :=
  if k ≤ l.length then some (l.drop k ++ l.take k) else none

/-- `usize::abs_diff`. -/
def natAbsDiff (a b : Nat) : Nat := max a b - min a b

/-- Modelled from the spec: the char-boundary predicate `u8_is_char_boundry`
lives in the missing `src/utils` module; per spec §4.2 a byte is a boundary
starter exactly when its top two bits are not `10`. -/
def u8_is_char_boundry (b : Nat) : Bool := (b &&& 192) != 128

/-- Modelled from the spec: the `GapSlice` view type (`SplitView`, §4.3) from
the missing `src/slice` module: either one contiguous piece or the two pieces
around the gap. -/
inductive GapSlice where
  | Single (s : List Nat)
  | Spaced (s1 s2 : List Nat)
  deriving DecidableEq

/-- `GapError` from src/lib.rs. -/
inductive GapError where
  | OutOfBounds (len target : Nat)
  | NotCharBoundry
  deriving DecidableEq

/-- Outcome of a `Result<(), GapError>`-returning text operation; `fatal`
models a panic/abort (failed slice bound, `assert!`, arithmetic underflow). -/
inductive Res (α : Type) where
  | ok (val : α)
  | err (e : GapError)
  | fatal
  deriving DecidableEq

/-- `DEFAULT_GAP_SIZE` from src/lib.rs. -/
def DEFAULT_GAP_SIZE : Nat := 512

/-- `GapText` from src/lib.rs: byte buffer, gap range, configured base gap
size, plus the modelled `Vec` capacity. -/
structure GapText where
  buf : List Nat
  gap_start : Nat
  gap_end : Nat
  base_gap_size : Nat
  cap : Nat
  deriving DecidableEq

/-- `GapText::new` (the `Cow` conversion collapses to the byte list; a fresh
`String::into_bytes` vector has capacity ≥ its length — we take equality). -/
def GapText.new (s : List Nat) : GapText :=
  { buf := s, gap_start := 0, gap_end := 0, base_gap_size := DEFAULT_GAP_SIZE, cap := s.length }

/-- `GapText::with_gap_size`. -/
def GapText.with_gap_size (s : List Nat) (size : Nat) : GapText :=
  { GapText.new s with base_gap_size := size }

/-- `self.gap.len()`. -/
def GapText.gap_len (t : GapText) : Nat := t.gap_end - t.gap_start

/-- `GapText::len`: `self.buf.len() - self.gap.len()`. -/
def GapText.len (t : GapText) : Nat := t.buf.length - t.gap_len

/-- The logical text held by the buffer: prefix before the gap and suffix
after it.  This is the observation function of the embedding, not a source
function. -/
def GapText.content (t : GapText) : List Nat :=
  t.buf.take t.gap_start ++ t.buf.drop t.gap_end

/-- The inner enum of `GapText::move_gap_start_to`. -/
inductive SurroundsDirection where
  | Right (r : Nat)
  | Left (l : Nat)
  | FalseDir

/-- `surrounds_gap_range` from `GapText::move_gap_start_to`
(`saturating_add`/`saturating_sub` are ordinary `Nat` operations). -/
def surrounds_gap_range (gs ge pos : Nat) : SurroundsDirection :=
  if gs < pos ∧ ge + (ge - gs) > pos ∧ pos - gs ≤ ge - gs then
    .Right (pos - gs)
  else if pos < gs ∧ gs - (ge - gs) ≤ pos ∧ gs - pos ≤ ge - gs then
    .Left (gs - pos)
  else
    .FalseDir

/-- The copy half of `GapText::move_gap_start_to`: the `invalid_offset`
overlap check, the `copy_nonoverlapping`, then `shift_gap_right`/
`shift_gap_left` by the recorded shifts. -/
def mgst_copy (t : GapText) (src dst cc rshift lshift : Nat) : Res GapText :=
  if t.buf.length ≤ max src dst + cc ∨ natAbsDiff src dst < cc then .fatal
  else
    match listSlice t.buf src (src + cc) with
    | none => .fatal
    | some seg =>
      match writeRange t.buf dst seg with
      | none => .fatal
      | some buf' =>
        .ok { t with buf := buf',
                     gap_start := t.gap_start + rshift - lshift,
                     gap_end := t.gap_end + rshift - lshift }

/-- `GapText::move_gap_start_to` from src/lib.rs.  Note that the empty-gap
fast path relocates the gap without any bounds check, exactly as in the
source. -/
def GapText.move_gap_start_to (t : GapText) (to' : Nat) : Res GapText :=
  if t.gap_start = to' then .ok t
  else if t.gap_end - t.gap_start = 0 then
    .ok { t with gap_start := to', gap_end := to' }
  else if t.buf.length - (t.gap_end - t.gap_start) < to' then
    .err (.OutOfBounds (t.buf.length - (t.gap_end - t.gap_start)) to')
  else
    match surrounds_gap_range t.gap_start t.gap_end to' with
    | .Right r => mgst_copy t t.gap_end t.gap_start r r 0
    | .Left l => mgst_copy t to' (t.gap_end - l) l 0 l
    | .FalseDir =>
      if t.gap_start > to' then
        match listSlice t.buf to' t.gap_end with
        | none => .fatal
        | some seg =>
          match rotateRightSeg seg (t.gap_end - t.gap_start) with
          | none => .fatal
          | some seg' =>
            .ok { t with buf := t.buf.take to' ++ seg' ++ t.buf.drop t.gap_end,
                         gap_start := t.gap_start - (t.gap_start - to'),
                         gap_end := t.gap_end - (t.gap_start - to') }
      else
        match listSlice t.buf t.gap_start (to' + (t.gap_end - t.gap_start)) with
        | none => .fatal
        | some seg =>
          match rotateLeftSeg seg (t.gap_end - t.gap_start) with
          | none => .fatal
          | some seg' =>
            .ok { t with buf := t.buf.take t.gap_start ++ seg' ++
                                  t.buf.drop (to' + (t.gap_end - t.gap_start)),
                         gap_start := t.gap_start + (to' - t.gap_start),
                         gap_end := t.gap_end + (to' - t.gap_start) }

/-- `GapText::insert_gap` (the `assert_eq!` and the slice/rotate bound
violations are `fatal`). -/
def GapText.insert_gap (t : GapText) (at' : Nat) : Res GapText :=
  if t.gap_start = t.gap_end then
    let buf1 := t.buf ++ List.replicate t.base_gap_size 0
    if at' ≤ buf1.length then
      match rotateRightSeg (buf1.drop at') t.base_gap_size with
      | none => .fatal
      | some seg =>
        .ok { t with buf := buf1.take at' ++ seg,
                     gap_start := at', gap_end := at' + t.base_gap_size,
                     cap := max t.cap buf1.length }
    else .fatal
  else .fatal

/-- `GapText::insert` from src/lib.rs.  Note the boundary byte is read at
physical index `at` after the gap has been moved there, exactly as in the
source. -/
def GapText.insert (t0 : GapText) (at' : Nat) (s : List Nat) : Res GapText :=
  match t0.move_gap_start_to at' with
  | .err e => .err e
  | .fatal => .fatal
  | .ok t =>
    match t.buf[at']? with
    | none => .err (.OutOfBounds (t.buf.length - (t.gap_end - t.gap_start)) at')
    | some b =>
      if ! u8_is_char_boundry b then .err .NotCharBoundry
      else if s.length ≤ t.gap_end - t.gap_start then
        match writeRange t.buf t.gap_start s with
        | none => .fatal
        | some buf' => .ok { t with buf := buf', gap_start := t.gap_start + s.length }
      else
        let inserted := t.gap_end - t.gap_start
        match writeRange t.buf t.gap_start (s.take inserted) with
        | none => .fatal
        | some buf1 =>
          let t1 := { t with buf := buf1, gap_start := t.gap_end }
          let t2 := { t1 with cap := max t1.cap (t1.buf.length + (s.length + t1.base_gap_size)) }
          let t3 := { t2 with buf := t2.buf ++ s.drop inserted,
                              cap := max t2.cap (t2.buf.length + (s.drop inserted).length) }
          match t3.insert_gap t3.buf.length with
          | .err e => .err e
          | .fatal => .fatal
          | .ok t4 =>
            if at' + inserted ≤ t4.buf.length then
              match rotateRightSeg (t4.buf.drop (at' + inserted))
                  (s.length - inserted + (t4.gap_end - t4.gap_start)) with
              | none => .fatal
              | some seg =>
                .ok { t4 with buf := t4.buf.take (at' + inserted) ++ seg,
                              gap_start := at' + s.length,
                              gap_end := at' + s.length + t4.base_gap_size }
            else .fatal

/-- `GapText::delete` from src/lib.rs: move the gap start to `end`, assert it
arrived, then absorb the range into the gap.  No char-boundary check is
performed, exactly as in the source. -/
def GapText.delete (t0 : GapText) (start e : Nat) : Res GapText :=
  match t0.move_gap_start_to e with
  | .err er => .err er
  | .fatal => .fatal
  | .ok t =>
    if t.gap_start = e then
      if start ≤ e ∧ e - start ≤ t.gap_start then
        .ok { t with gap_start := t.gap_start - (e - start) }
      else .fatal
    else .fatal

/-- `GapText::replace` from src/lib.rs, including its fallback branch that
extends by `DEFAULT_GAP_SIZE` zeroes but rotates the whole buffer by an
amount computed from `base_gap_size`, exactly as in the source. -/
def GapText.replace (t0 : GapText) (start e : Nat) (s : List Nat) : Res GapText :=
  if start ≤ e then
    match t0.move_gap_start_to (start + max (e - start) s.length) with
    | .err er => .err er
    | .fatal => .fatal
    | .ok t =>
      if (e - start) - s.length ≤ t.gap_start then
        let t1 := { t with gap_start := t.gap_start - ((e - start) - s.length) }
        if t1.gap_end - t1.gap_start + (s.length - (e - start)) ≤ t1.gap_end - t1.gap_start then
          match writeRange t1.buf start s with
          | none => .fatal
          | some buf' =>
            .ok { t1 with buf := buf', gap_start := t1.gap_start + (s.length - (e - start)) }
        else
          if t1.gap_end - start ≤ s.length ∧ start ≤ t1.gap_end then
            match writeRange t1.buf start (s.take (t1.gap_end - start)) with
            | none => .fatal
            | some buf1 =>
              let buf3 := (buf1 ++ s.drop (t1.gap_end - start)) ++ List.replicate DEFAULT_GAP_SIZE 0
              match rotateRightSeg buf3 (s.length - (t1.gap_end - start) + t1.base_gap_size) with
              | none => .fatal
              | some buf4 =>
                .ok { t1 with buf := buf4, cap := max t1.cap buf3.length,
                              gap_start := start + s.length,
                              gap_end := start + s.length + t1.base_gap_size }
          else .fatal
      else .fatal
  else .fatal

/-- `start_byte_pos_with_offset` from src/lib.rs. -/
def start_byte_pos_with_offset (gs ge byte_pos : Nat) : Nat :=
  if gs > byte_pos then byte_pos else (ge - gs) + byte_pos

/-- `end_byte_pos_with_offset` from src/lib.rs. -/
def end_byte_pos_with_offset (gs ge byte_pos : Nat) : Nat :=
  if gs ≥ byte_pos then byte_pos else (ge - gs) + byte_pos

/-- `is_get_single` from src/lib.rs. -/
def is_get_single (gap_start start stop : Nat) : Bool :=
  decide (stop ≤ gap_start) || decide (gap_start ≤ start)

/-- `is_get_char_boundry` from src/lib.rs. -/
def is_get_char_boundry (buf : List Nat) (b1 : Nat) (end_index : Nat) : Bool :=
  u8_is_char_boundry b1 &&
    ((buf[end_index]?).filter (fun b => ! u8_is_char_boundry b)).isNone

/-- Outcome of `GapText::get`/`get_raw`: `fatal` models the index/slice
panics, `notFound` is Rust's `None`. -/
inductive GetRes where
  | fatal
  | notFound
  | found (s : GapSlice)
  deriving DecidableEq

/-- `GapText::get_raw` from src/lib.rs, for an explicit `start..stop` range
(`get_range` on an explicit `Range` is the identity).  `buf[start_with_offset]`
is a checked index: out of bounds is `fatal`. -/
def get_raw (buf : List Nat) (gs ge a b : Nat) : GetRes :=
  if a > b ∨ buf.length - (ge - gs) < b then .notFound
  else
    match buf[start_byte_pos_with_offset gs ge a]? with
    | none => .fatal
    | some b1 =>
      if ! is_get_char_boundry buf b1 (end_byte_pos_with_offset gs ge b) then .notFound
      else if is_get_single gs a b then
        match listSlice buf (start_byte_pos_with_offset gs ge a)
            (end_byte_pos_with_offset gs ge b) with
        | none => .fatal
        | some sl => .found (.Single sl)
      else
        match listSlice buf (start_byte_pos_with_offset gs ge a) gs,
              listSlice buf ge (end_byte_pos_with_offset gs ge b) with
        | some s1, some s2 => .found (.Spaced s1 s2)
        | _, _ => .fatal

/-- `GapText::get` from src/lib.rs. -/
def GapText.get (t : GapText) (a b : Nat) : GetRes :=
  get_raw t.buf t.gap_start t.gap_end a b

/-- Outcome of `GapText::get_str`. -/
inductive StrRes where
  | fatal
  | notFound
  | found (s : List Nat)
  deriving DecidableEq

/-- Second half of `GapText::get_str`, after the scratch location has been
selected: re-run `get`, then stitch the two pieces.  When the gap is used as
scratch the stitched bytes are written into `buf[gap_start..]`; the spare
capacity branches write beyond `buf.length` and therefore leave the modelled
vector untouched.  The stitched view has length `s1.length + s2.length`
(which equals the requested `read_len`). -/
def get_str_spaced (t : GapText) (a b : Nat) : StrRes × GapText :=
  match GapText.get t a b with
  | .found (.Spaced s1 s2) =>
    if t.gap_end - t.gap_start > b - a then
      match writeRange t.buf t.gap_start (s1 ++ s2) with
      | none => (.fatal, t)
      | some buf' => (.found (s1 ++ s2), { t with buf := buf' })
    else (.found (s1 ++ s2), t)
  | .found (.Single _) => (.fatal, t)
  | .notFound => (.notFound, t)
  | .fatal => (.fatal, t)

/-- `GapText::get_str` from src/lib.rs for an explicit `start..stop` range:
an early return on the single-piece/`None`/panic outcomes of `get_raw`,
otherwise scratch selection (gap, spare capacity, or `reserve_exact`) followed
by `get_str_spaced`. -/
def GapText.get_str (t : GapText) (a b : Nat) : StrRes × GapText :=
  match get_raw t.buf t.gap_start t.gap_end a b with
  | .fatal => (.fatal, t)
  | .notFound => (.notFound, t)
  | .found (.Single s) => (.found s, t)
  | .found (.Spaced _ _) =>
    get_str_spaced
      (if t.gap_end - t.gap_start > b - a then t
       else if t.cap - t.buf.length > b - a then t
       else { t with cap := max t.cap (t.buf.length + (b - a)) }) a b

/-- `RawGapBuf<T>` from src/raw_gap_buf/raw.rs for a non-zero-sized `T`:
the single allocation `mem`, the prefix length (`start` slice length) and the
gap length (derived in the source from the two fat pointers; explicit here).
The end slice is the remainder of `mem`. -/
structure RawGapBuf where
  mem : List Nat
  start_len : Nat
  gap_len : Nat
  deriving DecidableEq

/-- `RawGapBuf::end_len`. -/
def RawGapBuf.end_len (b : RawGapBuf) : Nat := b.mem.length - b.start_len - b.gap_len

/-- `RawGapBuf::len`. -/
def RawGapBuf.len (b : RawGapBuf) : Nat := b.start_len + b.end_len

/-- `RawGapBuf::total_len`. -/
def RawGapBuf.total_len (b : RawGapBuf) : Nat := b.start_len + b.gap_len + b.end_len

/-- The logical element sequence of the raw buffer: prefix then suffix. -/
def RawGapBuf.content (b : RawGapBuf) : List Nat :=
  b.mem.take b.start_len ++ b.mem.drop (b.start_len + b.gap_len)

/-- `ptr::copy`/`copy_nonoverlapping` of `cc` elements from offset `src` to
offset `dst` inside one allocation (`memmove` semantics: the source is read
from the pre-copy state). -/
def copyWithin (l : List Nat) (src dst cc : Nat) : List Nat :=
  l.take dst ++ (l.drop src).take cc ++ l.drop (dst + cc)

/-- `RawGapBuf::move_gap_start_to` from src/raw_gap_buf/raw.rs (non-ZST):
the `assert!` is `none`; the four copy branches are translated with their
source/destination offsets spelled exactly as in the source (`spare` is the
gap start, offset `start_len`), and `shift_gap` becomes the `start_len`
update. -/
def RawGapBuf.move_gap_start_to (b : RawGapBuf) (to' : Nat) : Option RawGapBuf :=
  if ¬ to' ≤ b.len then none
  else if b.start_len = to' then some b
  else
    if to' < b.start_len ∧ b.start_len - to' ≤ b.gap_len then
      -- copy_count = start_len - to'
      some { b with mem := copyWithin b.mem (b.start_len - (b.start_len - to'))
                            (b.start_len + (b.gap_len - (b.start_len - to'))) (b.start_len - to'),
                    start_len := b.start_len - (b.start_len - to') }
    else if to' > b.start_len ∧ to' - b.start_len ≤ b.gap_len then
      -- copy_count = to' - start_len
      some { b with mem := copyWithin b.mem (b.start_len + b.gap_len) b.start_len
                            (to' - b.start_len),
                    start_len := b.start_len + (to' - b.start_len) }
    else if to' ≥ b.start_len then
      -- copy_count = to' - start_len
      some { b with mem := copyWithin b.mem (b.start_len + b.gap_len) b.start_len
                            (to' - b.start_len),
                    start_len := b.start_len + (to' - b.start_len) }
    else
      -- copy_count = start_len - to'
      some { b with mem := copyWithin b.mem to' (to' + b.gap_len) (b.start_len - to'),
                    start_len := b.start_len - (b.start_len - to') }

/-- `RawGapBuf::move_gap_out_of` from src/raw_gap_buf/raw.rs. -/
def RawGapBuf.move_gap_out_of (b : RawGapBuf) (rs re : Nat) : Option RawGapBuf :=
  if ¬ (b.total_len ≥ re ∧ rs ≤ re) then none
  else if rs > b.start_len ∨ re ≤ b.start_len then some b
  else
    -- to_right_copy = start_len - rs, to_left_copy = re - start_len
    b.move_gap_start_to (if b.start_len - rs > re - b.start_len then re else rs)

/-- `Drain<T>` from src/gap_buf/drain.rs: the remaining slice.  Elements are
identified by `Nat` values; each operation also reports the list of elements
whose destructor (`drop_in_place`) it ran. -/
structure Drain where
  ptr : List Nat
  deriving DecidableEq

/-- `Iterator::next for Drain`: yield the first remaining element (no
destructor runs). -/
def Drain.next (d : Drain) : Option Nat × List Nat × Drain :=
  if d.ptr.length = 0 then (none, [], d)
  else (d.ptr[0]?, [], ⟨d.ptr.drop 1⟩)

/-- `Iterator::nth for Drain`: destroy the skipped prefix (or, past the end,
everything) and yield element `n`. -/
def Drain.nth (d : Drain) (n : Nat) : Option Nat × List Nat × Drain :=
  if n ≥ d.ptr.length then (none, d.ptr, ⟨[]⟩)
  else (d.ptr[n]?, d.ptr.take n, ⟨d.ptr.drop (n + 1)⟩)

/-- `Iterator::count for Drain`: destroy everything, return how many. -/
def Drain.count (d : Drain) : Nat × List Nat × Drain :=
  (d.ptr.length, d.ptr, ⟨[]⟩)

/-- `Iterator::last for Drain`: read the final element and set the slice
length to zero.  No destructor is run for the preceding elements, exactly as
in the source. -/
def Drain.last (d : Drain) : Option Nat × List Nat × Drain :=
  if d.ptr.length = 0 then (none, [], d)
  else (d.ptr[d.ptr.length - 1]?, [], ⟨[]⟩)

/-- `DoubleEndedIterator::next_back for Drain`. -/
def Drain.next_back (d : Drain) : Option Nat × List Nat × Drain :=
  if d.ptr.length = 0 then (none, [], d)
  else (d.ptr[d.ptr.length - 1]?, [], ⟨d.ptr.take (d.ptr.length - 1)⟩)

/-- `Drop::drop for Drain`: destroy every remaining element. -/
def Drain.drop (d : Drain) : List Nat := d.ptr

/-- An iterator call in an interleaving. -/
inductive DrainOp where
  | next
  | next_back
  | nth (n : Nat)
  | count
  | last
  deriving DecidableEq

/-- Run a sequence of iterator calls, collecting the yielded elements and the
destroyed elements in order. -/
def Drain.runOps (d : Drain) : List DrainOp → List Nat × List Nat × Drain
  | [] => ([], [], d)
  | op :: rest =>
    let step : Option Nat × List Nat × Drain :=
      match op with
      | .next => d.next
      | .next_back => d.next_back
      | .nth n => d.nth n
      | .count => (none, d.count.2.1, d.count.2.2)
      | .last => d.last
    let rec' := step.2.2.runOps rest
    (step.1.toList ++ rec'.1, step.2.1 ++ rec'.2.1, rec'.2.2)

/-- Run an interleaving over a drain of `l` and then drop the iterator; the
result is the yielded list and the destroyed list. -/
def Drain.runAndDrop (l : List Nat) (ops : List DrainOp) : List Nat × List Nat :=
  let r := Drain.runOps ⟨l⟩ ops
  (r.1, r.2.1 ++ r.2.2.drop)

/-- Sequencing helper: continue a computation on the text buffer only when the
previous operation returned `Ok`. -/
def resThen (r : Res GapText) (f : GapText → Res GapText) : Res GapText :=
  match r with
  | .ok t => f t
  | .err e => .err e
  | .fatal => .fatal

/-- Whether a text operation returned `Ok`. -/
def resIsOk : Res GapText → Bool :=
  fun r => match r with | .ok _ => true | _ => false

/-- Logical content of the buffer after an operation, when it returned `Ok`. -/
def resContent : Res GapText → Option (List Nat) :=
  fun r => match r with | .ok t => some t.content | _ => none

/-- Logical length of the buffer after an operation, when it returned `Ok`. -/
def resLen : Res GapText → Option Nat :=
  fun r => match r with | .ok t => some t.len | _ => none

/-- `get` on the buffer left by an operation that returned `Ok`. -/
def resGet (r : Res GapText) (a b : Nat) : GetRes :=
  match r with | .ok t => t.get a b | _ => .fatal

/-- State after `GapText::with_gap_size("ab", 2)` followed by
`replace(0..1, "xy")`. -/
def c1_after : Res GapText := (GapText.with_gap_size [97, 98] 2).replace 0 1 [120, 121]

/-- `get_str(0..len())` on that state. -/
def c1_read : StrRes :=
  match c1_after with
  | .ok t => (t.get_str 0 t.len).1
  | _ => .fatal

set_option maxRecDepth 40000 in
/-- Claim C1: the round-trip property fails on the code.  On the buffer built
from `"ab"` with base gap size 2, the valid edit `replace(0..1, "xy")` returns
`Ok`, yet afterwards the logical length is 512 instead of 3 and
`get_str(0..len())` does not return the reference splice `"xyb"`: the
fallback branch of `replace` rotates the whole buffer (placing the 512
appended zero bytes in front of the text) instead of rotating only the tail
after the edit. -/
theorem C1_round_trip_replace_bug :
    resIsOk c1_after = true ∧
    c1_read ≠ StrRes.found [120, 121, 98] ∧
    resLen c1_after = some 512 := by decide

/-- Claim C2: the drain protocol fails on the code for interleavings that end
with `last()`.  Draining the two owned elements `0, 1`, calling `last()` and
then dropping the iterator yields element `1` and destroys nothing, so
element `0` is neither yielded nor destroyed — the yielded and destroyed
elements together are not a permutation of the drained elements. -/
theorem C2_drain_interleaving_last_leaks :
    Drain.runAndDrop [0, 1] [DrainOp.last] = ([1], []) ∧
    ¬ List.Perm ((Drain.runAndDrop [0, 1] [DrainOp.last]).1 ++
        (Drain.runAndDrop [0, 1] [DrainOp.last]).2) [0, 1] := by decide

/-- Claim C3: `delete` performs no char-boundary check.  On the buffer built
from `"é"` (bytes `[195, 169]`), `delete(0..1)` ends inside the two-byte
codepoint (byte `169` is a continuation byte), yet the call returns `Ok` and
changes the logical content to the dangling continuation byte `[169]` instead
of failing with `NotCharBoundary` and leaving the content unchanged. -/
theorem C3_delete_skips_char_boundary_check :
    (GapText.new [195, 169]).delete 0 1 = Res.ok (GapText.mk [195, 169] 0 1 512 2) ∧
    GapText.content (GapText.mk [195, 169] 0 1 512 2) ≠
      GapText.content (GapText.new [195, 169]) ∧
    u8_is_char_boundry 169 = false := by decide

/-- Claim C4: appending fails.  On the fresh buffer built from `"ab"` (empty
gap), `insert(2, "c")` with `at == length == 2` — a char boundary — returns
`OutOfBounds { len: 2, target: 2 }` instead of succeeding, because the
boundary check reads the physical byte `buf[at]`, which does not exist when
the gap is empty and `at == length`. -/
theorem C4_insert_at_len_out_of_bounds :
    (GapText.new [97, 98]).insert 2 [99] = Res.err (GapError.OutOfBounds 2 2) ∧
    (GapText.new [97, 98]).len = 2 := by decide

/-- State reached from `with_gap_size("éza", 2)` by `insert(0, "x")`,
`move_gap_start_to(3)` and `move_gap_start_to(4)`: logical content `"xéza"`
(`[120, 195, 169, 122, 97]`) with a non-empty gap starting at position 4
whose first physical byte is a stale continuation byte `169`. -/
def c5_res : Res GapText :=
  resThen (resThen (resThen (Res.ok (GapText.with_gap_size [195, 169, 122, 97] 2))
    (fun t => t.insert 0 [120]))
    (fun t => t.move_gap_start_to 3))
    (fun t => t.move_gap_start_to 4)

/-- Claim C5: the end-boundary check of `get` reads a byte inside the gap.
On a buffer with logical content `"xéza"` and the gap starting at position 4,
`get(0..4)` returns `None` even though both endpoints lie on character
boundaries of the logical text (`'x' = 120` and `'a' = 97` are boundary
starters and `4 ≤ len = 5`): with the range end coinciding with the gap
start, `end_byte_pos_with_offset` yields the physical index of the first gap
byte — a stale continuation byte — rather than the first logical byte after
the gap. -/
theorem C5_get_boundary_check_reads_gap_byte :
    resGet c5_res 0 4 = GetRes.notFound ∧
    resContent c5_res = some [120, 195, 169, 122, 97] ∧
    resLen c5_res = some 5 ∧
    u8_is_char_boundry 120 = true ∧
    u8_is_char_boundry 97 = true := by decide

/-- Claim C6: `last()` leaks.  On a drain over the three elements `0, 1, 2`,
`last()` returns the final element `2` but runs the destructor of no other
remaining element (the destroyed list is empty, not `[0, 1]`), and leaves an
empty slice so the subsequent drop destroys nothing either. -/
theorem C6_last_leaks_preceding_elements :
    Drain.last ⟨[0, 1, 2]⟩ = (some 2, [], (⟨[]⟩ : Drain)) ∧
    (Drain.last ⟨[0, 1, 2]⟩).2.1 ≠ [0, 1] := by decide

/-- Claim C7: on the text buffer the empty-gap fast path of
`move_gap_start_to` skips the bounds check: on the fresh buffer built from
`"ab"` (length 2, empty gap), `move_gap_start_to(5)` returns `Ok` and plants
the gap at `5..5` instead of failing with `OutOfBounds`.  The raw buffer, in
contrast, does fail loudly (`assert!(to <= self.len())`). -/
theorem C7_empty_gap_move_beyond_len_returns_ok :
    (GapText.new [97, 98]).move_gap_start_to 5 = Res.ok (GapText.mk [97, 98] 5 5 512 2) ∧
    (GapText.new [97, 98]).len < 5 ∧
    RawGapBuf.move_gap_start_to (RawGapBuf.mk [1, 2] 2 0) 5 = none := by decide

theorem copyWithin_length {l : List Nat} {src dst cc : Nat}
    (hs : src + cc ≤ l.length) (hd : dst + cc ≤ l.length) :
    (copyWithin l src dst cc).length = l.length := by
  simp only [copyWithin, List.length_append, List.length_take, List.length_drop]
  omega

theorem copyWithin_right_content {l : List Nat} {P G cc : Nat}
    (h : P + G + cc ≤ l.length) :
    (copyWithin l (P + G) P cc).take (P + cc) ++
      (copyWithin l (P + G) P cc).drop (P + cc + G) =
        l.take P ++ l.drop (P + G) := by
  have hA : (l.take P).length = P := by simp [List.length_take]; omega
  have hS : ((l.drop (P + G)).take cc).length = cc := by
    simp [List.length_take, List.length_drop]; omega
  have hAS : (l.take P ++ (l.drop (P + G)).take cc).length = P + cc := by
    simp [hA, hS]
  have e1 : (copyWithin l (P + G) P cc).take (P + cc) =
      l.take P ++ (l.drop (P + G)).take cc := by
    unfold copyWithin
    exact List.take_left' hAS
  have e2 : (copyWithin l (P + G) P cc).drop (P + cc + G) = l.drop (P + G + cc) := by
    unfold copyWithin
    rw [List.drop_append_eq_append_drop,
      List.drop_eq_nil_of_le (by rw [hAS]; omega), List.nil_append, hAS, List.drop_drop]
    congr 1
    omega
  rw [e1, e2, List.append_assoc]
  congr 1
  nth_rewrite 2 [← List.drop_drop]
  rw [List.take_append_drop]

theorem copyWithin_left_content {l : List Nat} {P G to' : Nat}
    (hto : to' ≤ P) (h : P + G ≤ l.length) :
    (copyWithin l to' (to' + G) (P - to')).take to' ++
      (copyWithin l to' (to' + G) (P - to')).drop (to' + G) =
        l.take P ++ l.drop (P + G) := by
  have hA : (l.take (to' + G)).length = to' + G := by simp [List.length_take]; omega
  have e1 : (copyWithin l to' (to' + G) (P - to')).take to' = l.take to' := by
    unfold copyWithin
    rw [List.take_append_of_le_length (by rw [List.length_append, hA]; omega),
      List.take_append_of_le_length (by rw [hA]; omega), List.take_take]
    congr 1
    omega
  have e2 : (copyWithin l to' (to' + G) (P - to')).drop (to' + G) =
      (l.drop to').take (P - to') ++ l.drop (to' + G + (P - to')) := by
    unfold copyWithin
    rw [List.append_assoc]
    exact List.drop_left' hA
  rw [e1, e2, show to' + G + (P - to') = P + G from by omega]
  have e3 : l.take P = l.take to' ++ (l.drop to').take (P - to') := by
    rw [← List.take_add]
    congr 1
    omega
  rw [e3, List.append_assoc]

theorem RawGapBuf.move_gap_start_to_spec (b : RawGapBuf)
    (hwf : b.start_len + b.gap_len ≤ b.mem.length) (to' : Nat) (hto : to' ≤ b.len) :
    ∃ b', b.move_gap_start_to to' = some b' ∧
      b'.content = b.content ∧ b'.start_len = to' ∧ b'.gap_len = b.gap_len ∧
      b'.mem.length = b.mem.length := by
  have hlen : b.len = b.mem.length - b.gap_len := by
    unfold RawGapBuf.len RawGapBuf.end_len
    omega
  have hto' : to' + b.gap_len ≤ b.mem.length := by omega
  unfold RawGapBuf.move_gap_start_to
  rw [if_neg (by omega : ¬ ¬ to' ≤ b.len)]
  by_cases h1 : b.start_len = to'
  · rw [if_pos h1]
    exact ⟨b, rfl, rfl, h1, rfl, rfl⟩
  rw [if_neg h1]
  by_cases h2 : to' < b.start_len ∧ b.start_len - to' ≤ b.gap_len
  · rw [if_pos h2]
    rw [show b.start_len - (b.start_len - to') = to' from by omega,
      show b.start_len + (b.gap_len - (b.start_len - to')) = to' + b.gap_len from by omega]
    refine ⟨_, rfl, ?_, rfl, rfl, ?_⟩
    · show (copyWithin b.mem to' (to' + b.gap_len) (b.start_len - to')).take to' ++
        (copyWithin b.mem to' (to' + b.gap_len) (b.start_len - to')).drop (to' + b.gap_len) =
          b.mem.take b.start_len ++ b.mem.drop (b.start_len + b.gap_len)
      exact copyWithin_left_content (by omega) (by omega)
    · show (copyWithin b.mem to' (to' + b.gap_len) (b.start_len - to')).length = b.mem.length
      exact copyWithin_length (by omega) (by omega)
  rw [if_neg h2]
  by_cases h3 : to' > b.start_len ∧ to' - b.start_len ≤ b.gap_len
  · rw [if_pos h3]
    refine ⟨_, rfl, ?_, by show b.start_len + (to' - b.start_len) = to'; omega, rfl, ?_⟩
    · show (copyWithin b.mem (b.start_len + b.gap_len) b.start_len (to' - b.start_len)).take
          (b.start_len + (to' - b.start_len)) ++
        (copyWithin b.mem (b.start_len + b.gap_len) b.start_len (to' - b.start_len)).drop
          (b.start_len + (to' - b.start_len) + b.gap_len) =
          b.mem.take b.start_len ++ b.mem.drop (b.start_len + b.gap_len)
      exact copyWithin_right_content (by omega)
    · show (copyWithin b.mem (b.start_len + b.gap_len) b.start_len
          (to' - b.start_len)).length = b.mem.length
      exact copyWithin_length (by omega) (by omega)
  rw [if_neg h3]
  by_cases h4 : to' ≥ b.start_len
  · rw [if_pos h4]
    have hgt : to' > b.start_len := by omega
    refine ⟨_, rfl, ?_, by show b.start_len + (to' - b.start_len) = to'; omega, rfl, ?_⟩
    · show (copyWithin b.mem (b.start_len + b.gap_len) b.start_len (to' - b.start_len)).take
          (b.start_len + (to' - b.start_len)) ++
        (copyWithin b.mem (b.start_len + b.gap_len) b.start_len (to' - b.start_len)).drop
          (b.start_len + (to' - b.start_len) + b.gap_len) =
          b.mem.take b.start_len ++ b.mem.drop (b.start_len + b.gap_len)
      exact copyWithin_right_content (by omega)
    · show (copyWithin b.mem (b.start_len + b.gap_len) b.start_len
          (to' - b.start_len)).length = b.mem.length
      exact copyWithin_length (by omega) (by omega)
  · rw [if_neg h4]
    have hlt : to' < b.start_len := by omega
    rw [show b.start_len - (b.start_len - to') = to' from by omega]
    refine ⟨_, rfl, ?_, rfl, rfl, ?_⟩
    · show (copyWithin b.mem to' (to' + b.gap_len) (b.start_len - to')).take to' ++
        (copyWithin b.mem to' (to' + b.gap_len) (b.start_len - to')).drop (to' + b.gap_len) =
          b.mem.take b.start_len ++ b.mem.drop (b.start_len + b.gap_len)
      exact copyWithin_left_content (by omega) (by omega)
    · show (copyWithin b.mem to' (to' + b.gap_len) (b.start_len - to')).length = b.mem.length
      exact copyWithin_length (by omega) (by omega)

/-- Claim C8: when the gap intersects `rs..re` (`rs ≤ start_len < re`, with a
range inside the logical length), `move_gap_out_of` repositions the gap to
`rs` when `start_len - rs ≤ re - start_len` and to `re` otherwise — the
boundary needing the smaller copy — leaving the logical element sequence and
the gap length unchanged and the gap outside the range; when the gap is
already outside the range, nothing changes. -/
theorem C8_move_gap_out_of_min_copy (b : RawGapBuf)
    (hwf : b.start_len + b.gap_len ≤ b.mem.length)
    (rs re : Nat) (hre : re ≤ b.len) (hrs : rs ≤ re) :
    ((rs ≤ b.start_len ∧ b.start_len < re) →
      ∃ b', b.move_gap_out_of rs re = some b' ∧
        b'.content = b.content ∧
        b'.start_len = (if b.start_len - rs ≤ re - b.start_len then rs else re) ∧
        b'.gap_len = b.gap_len ∧
        (b'.start_len ≤ rs ∨ re ≤ b'.start_len)) ∧
    ((rs > b.start_len ∨ re ≤ b.start_len) → b.move_gap_out_of rs re = some b) := by
  have htot : b.total_len ≥ re := by
    unfold RawGapBuf.total_len RawGapBuf.end_len
    unfold RawGapBuf.len RawGapBuf.end_len at hre
    omega
  constructor
  · rintro ⟨hi1, hi2⟩
    unfold RawGapBuf.move_gap_out_of
    rw [if_neg (not_not_intro ⟨htot, hrs⟩), if_neg (by omega)]
    by_cases hc : b.start_len - rs > re - b.start_len
    · rw [if_pos hc]
      obtain ⟨b', hmv, hcont, hsl, hgl, _⟩ :=
        b.move_gap_start_to_spec hwf re (by omega)
      exact ⟨b', hmv, hcont, by rw [hsl, if_neg (by omega)], hgl, by omega⟩
    · rw [if_neg hc]
      obtain ⟨b', hmv, hcont, hsl, hgl, _⟩ :=
        b.move_gap_start_to_spec hwf rs (by omega)
      exact ⟨b', hmv, hcont, by rw [hsl, if_pos (by omega)], hgl, by omega⟩
  · intro hout
    unfold RawGapBuf.move_gap_out_of
    rw [if_neg (not_not_intro ⟨htot, hrs⟩), if_pos hout]

/-- Witness for C8 at a concrete buffer: `mem = [1,2,3,4,5]`, prefix length 2,
gap length 1, with the range `1..3` intersecting the gap position. -/
theorem C8_move_gap_out_of_min_copy_witness :
    ((RawGapBuf.mk [1, 2, 3, 4, 5] 2 1).start_len + (RawGapBuf.mk [1, 2, 3, 4, 5] 2 1).gap_len ≤
        (RawGapBuf.mk [1, 2, 3, 4, 5] 2 1).mem.length) ∧
    (((1 ≤ (RawGapBuf.mk [1, 2, 3, 4, 5] 2 1).start_len ∧
        (RawGapBuf.mk [1, 2, 3, 4, 5] 2 1).start_len < 3) →
      ∃ b', (RawGapBuf.mk [1, 2, 3, 4, 5] 2 1).move_gap_out_of 1 3 = some b' ∧
        b'.content = (RawGapBuf.mk [1, 2, 3, 4, 5] 2 1).content ∧
        b'.start_len = (if (RawGapBuf.mk [1, 2, 3, 4, 5] 2 1).start_len - 1 ≤
            3 - (RawGapBuf.mk [1, 2, 3, 4, 5] 2 1).start_len then 1 else 3) ∧
        b'.gap_len = (RawGapBuf.mk [1, 2, 3, 4, 5] 2 1).gap_len ∧
        (b'.start_len ≤ 1 ∨ 3 ≤ b'.start_len)) ∧
    ((1 > (RawGapBuf.mk [1, 2, 3, 4, 5] 2 1).start_len ∨
        3 ≤ (RawGapBuf.mk [1, 2, 3, 4, 5] 2 1).start_len) →
      (RawGapBuf.mk [1, 2, 3, 4, 5] 2 1).move_gap_out_of 1 3 =
        some (RawGapBuf.mk [1, 2, 3, 4, 5] 2 1))) :=
  ⟨by decide,
    C8_move_gap_out_of_min_copy (RawGapBuf.mk [1, 2, 3, 4, 5] 2 1) (by decide) 1 3
      (by decide) (by decide)⟩

theorem writeRange_take {l s : List Nat} {i : Nat} (h : i + s.length ≤ l.length) :
    (l.take i ++ s ++ l.drop (i + s.length)).take i = l.take i := by
  have hA : (l.take i).length = i := by simp [List.length_take]; omega
  rw [List.take_append_of_le_length (by rw [List.length_append, hA]; omega),
    List.take_append_of_le_length (by rw [hA]), List.take_take]
  congr 1
  omega

theorem writeRange_drop {l s : List Nat} {i j : Nat} (hij : i + s.length ≤ j)
    (h : i + s.length ≤ l.length) :
    (l.take i ++ s ++ l.drop (i + s.length)).drop j = l.drop j := by
  have hAS : (l.take i ++ s).length = i + s.length := by
    simp [List.length_take]; omega
  rw [List.drop_append_eq_append_drop, List.drop_eq_nil_of_le (by rw [hAS]; omega),
    List.nil_append, hAS, List.drop_drop]
  congr 1
  omega

theorem writeRange_len {l s : List Nat} {i : Nat} (h : i + s.length ≤ l.length) :
    (l.take i ++ s ++ l.drop (i + s.length)).length = l.length := by
  simp [List.length_take, List.length_drop]
  omega

theorem get_raw_spaced_inv {buf : List Nat} {gs ge a b : Nat} {s1 s2 : List Nat}
    (h : get_raw buf gs ge a b = .found (.Spaced s1 s2)) :
    a ≤ b ∧ b ≤ buf.length - (ge - gs) ∧ a < gs ∧ gs < b ∧ gs ≤ buf.length ∧
    ge ≤ ge - gs + b ∧ ge - gs + b ≤ buf.length ∧
    s1 = (buf.drop a).take (gs - a) ∧ s2 = (buf.drop ge).take (ge - gs + b - ge) := by
  unfold get_raw at h
  split at h
  · exact absurd h (by simp)
  rename_i hguard
  push_neg at hguard
  obtain ⟨hab, hble⟩ := hguard
  split at h
  · exact absurd h (by simp)
  rename_i b1 hb1
  split at h
  · exact absurd h (by simp)
  rename_i hbd
  split at h
  · split at h <;> exact absurd h (by simp)
  rename_i hsing
  have hrange : a < gs ∧ gs < b := by
    simp only [is_get_single, Bool.or_eq_true, decide_eq_true_eq] at hsing
    omega
  have hswo : start_byte_pos_with_offset gs ge a = a := by
    unfold start_byte_pos_with_offset
    rw [if_pos (by omega)]
  have hewo : end_byte_pos_with_offset gs ge b = ge - gs + b := by
    unfold end_byte_pos_with_offset
    rw [if_neg (by omega)]
  split at h
  case _ t1 t2 hs1 hs2 =>
    obtain ⟨rfl, rfl⟩ : t1 = s1 ∧ t2 = s2 := by
      simpa [GetRes.found.injEq, GapSlice.Spaced.injEq] using h
    rw [hswo] at hs1
    rw [hewo] at hs2
    unfold listSlice at hs1 hs2
    split at hs1
    case isFalse => exact absurd hs1 (by simp)
    case isTrue h1 =>
    split at hs2
    case isFalse => exact absurd hs2 (by simp)
    case isTrue h2 =>
    have hv1 := Option.some.inj hs1
    have hv2 := Option.some.inj hs2
    exact ⟨hab, hble, hrange.1, hrange.2, h1.2, h2.1, h2.2, hv1.symm, hv2.symm⟩
  case _ => exact absurd h (by simp)

theorem get_raw_congr_outside {buf buf' : List Nat} {gs ge a b : Nat}
    (hlen : buf'.length = buf.length)
    (htake : buf'.take gs = buf.take gs)
    (hdrop : buf'.drop ge = buf.drop ge)
    (hags : a < gs) (hgsb : gs < b) (hge : gs ≤ ge) :
    get_raw buf' gs ge a b = get_raw buf gs ge a b := by
  have hswo : start_byte_pos_with_offset gs ge a = a := by
    unfold start_byte_pos_with_offset
    rw [if_pos (by omega)]
  have hewo : end_byte_pos_with_offset gs ge b = ge - gs + b := by
    unfold end_byte_pos_with_offset
    rw [if_neg (by omega)]
  have hgeewo : ge ≤ ge - gs + b := by omega
  have hb1 : buf'[a]? = buf[a]? := by
    have h1 := congrArg (fun l => l[a]?) htake
    simpa [List.getElem?_take, hags] using h1
  have hout : ∀ i, ge ≤ i → buf'[i]? = buf[i]? := by
    intro i hi
    have h1 := congrArg (fun l => l[i - ge]?) hdrop
    simp only [List.getElem?_drop] at h1
    rwa [show ge + (i - ge) = i from by omega] at h1
  have hcb : ∀ x, is_get_char_boundry buf' x (ge - gs + b) =
      is_get_char_boundry buf x (ge - gs + b) := by
    intro x
    unfold is_get_char_boundry
    rw [hout _ hgeewo]
  have hslice1 : listSlice buf' a gs = listSlice buf a gs := by
    unfold listSlice
    rw [hlen]
    by_cases hcond : a ≤ gs ∧ gs ≤ buf.length
    · rw [if_pos hcond, if_pos hcond]
      congr 1
      rw [List.take_drop, List.take_drop, show a + (gs - a) = gs from by omega, htake]
    · rw [if_neg hcond, if_neg hcond]
  have hslice2 : listSlice buf' ge (ge - gs + b) = listSlice buf ge (ge - gs + b) := by
    unfold listSlice
    rw [hlen, hdrop]
  have hsing : is_get_single gs a b = false := by
    simp only [is_get_single, Bool.or_eq_false_iff, decide_eq_false_iff_not]
    omega
  unfold get_raw
  rw [hlen, hswo, hewo, hb1]
  simp only [hcb, hslice1, hslice2, hsing, Bool.false_eq_true, if_false]

theorem get_str_spaced_frame (t : GapText) (hwf1 : t.gap_start ≤ t.gap_end)
    (hwf2 : t.gap_end ≤ t.buf.length) (a b : Nat) :
    (get_str_spaced t a b).2.buf.length = t.buf.length ∧
    (get_str_spaced t a b).2.gap_start = t.gap_start ∧
    (get_str_spaced t a b).2.gap_end = t.gap_end ∧
    GapText.content (get_str_spaced t a b).2 = t.content ∧
    (get_str_spaced t a b).2.get a b = t.get a b := by
  unfold get_str_spaced
  split
  case _ s1 s2 hg =>
    by_cases hc : t.gap_end - t.gap_start > b - a
    · rw [if_pos hc]
      obtain ⟨hab, hble, hags, hgsb, hgsle, hgele, hewole, hs1v, hs2v⟩ :=
        get_raw_spaced_inv hg
      have hlen12 : (s1 ++ s2).length = b - a := by
        rw [hs1v, hs2v]
        simp [List.length_take, List.length_drop]
        omega
      have hwr : t.gap_start + (s1 ++ s2).length ≤ t.buf.length := by
        rw [hlen12]
        omega
      have hij : t.gap_start + (s1 ++ s2).length ≤ t.gap_end := by
        rw [hlen12]
        omega
      have hwr2 : writeRange t.buf t.gap_start (s1 ++ s2) =
          some (t.buf.take t.gap_start ++ (s1 ++ s2) ++
            t.buf.drop (t.gap_start + (s1 ++ s2).length)) := by
        unfold writeRange
        rw [if_pos hwr]
      rw [hwr2]
      refine ⟨writeRange_len hwr, rfl, rfl, ?_, ?_⟩
      · show (t.buf.take t.gap_start ++ (s1 ++ s2) ++
            t.buf.drop (t.gap_start + (s1 ++ s2).length)).take t.gap_start ++
          (t.buf.take t.gap_start ++ (s1 ++ s2) ++
            t.buf.drop (t.gap_start + (s1 ++ s2).length)).drop t.gap_end =
          t.buf.take t.gap_start ++ t.buf.drop t.gap_end
        rw [writeRange_take hwr, writeRange_drop hij hwr]
      · show get_raw (t.buf.take t.gap_start ++ (s1 ++ s2) ++
            t.buf.drop (t.gap_start + (s1 ++ s2).length)) t.gap_start t.gap_end a b =
          GapText.get t a b
        rw [get_raw_congr_outside (writeRange_len hwr) (writeRange_take hwr)
          (writeRange_drop hij hwr) hags hgsb hwf1]
        rfl
    · rw [if_neg hc]
      exact ⟨rfl, rfl, rfl, rfl, rfl⟩
  case _ => exact ⟨rfl, rfl, rfl, rfl, rfl⟩
  case _ => exact ⟨rfl, rfl, rfl, rfl, rfl⟩
  case _ => exact ⟨rfl, rfl, rfl, rfl, rfl⟩

/-- Claim C9: reads do not mutate observable state.  `get` borrows the buffer
immutably (in the embedding it is a pure function of the state, so two
consecutive calls trivially agree), and `get_str` — even when it stitches the
requested range into the gap or spare capacity as scratch space — leaves the
logical content, the gap position, and `len()` unchanged, and a `get` over
the same range after `get_str` returns exactly what it returned before. -/
theorem C9_get_str_reads_are_pure (t : GapText)
    (hwf1 : t.gap_start ≤ t.gap_end) (hwf2 : t.gap_end ≤ t.buf.length) (a b : Nat) :
    GapText.content (t.get_str a b).2 = t.content ∧
    (t.get_str a b).2.gap_start = t.gap_start ∧
    (t.get_str a b).2.gap_end = t.gap_end ∧
    (t.get_str a b).2.len = t.len ∧
    (t.get_str a b).2.get a b = t.get a b := by
  unfold GapText.get_str
  split
  case _ => exact ⟨rfl, rfl, rfl, rfl, rfl⟩
  case _ => exact ⟨rfl, rfl, rfl, rfl, rfl⟩
  case _ => exact ⟨rfl, rfl, rfl, rfl, rfl⟩
  case _ s1 s2 hg =>
  by_cases hc1 : t.gap_end - t.gap_start > b - a
  · rw [if_pos hc1]
    have h := get_str_spaced_frame t hwf1 hwf2 a b
    exact ⟨h.2.2.2.1, h.2.1, h.2.2.1,
      by unfold GapText.len GapText.gap_len; rw [h.1, h.2.1, h.2.2.1], h.2.2.2.2⟩
  rw [if_neg hc1]
  by_cases hc2 : t.cap - t.buf.length > b - a
  · rw [if_pos hc2]
    have h := get_str_spaced_frame t hwf1 hwf2 a b
    exact ⟨h.2.2.2.1, h.2.1, h.2.2.1,
      by unfold GapText.len GapText.gap_len; rw [h.1, h.2.1, h.2.2.1], h.2.2.2.2⟩
  · rw [if_neg hc2]
    have h := get_str_spaced_frame { t with cap := max t.cap (t.buf.length + (b - a)) }
      hwf1 hwf2 a b
    exact ⟨h.2.2.2.1, h.2.1, h.2.2.1,
      by unfold GapText.len GapText.gap_len; rw [h.1, h.2.1, h.2.2.1], h.2.2.2.2⟩

/-- Witness for C9 at a concrete state whose `get_str` takes the gap-scratch
path: buffer `"a···bc"` with gap `1..4`, reading range `0..2`. -/
theorem C9_get_str_reads_are_pure_witness :
    ((GapText.mk [97, 0, 0, 0, 98, 99] 1 4 4 6).gap_start ≤
        (GapText.mk [97, 0, 0, 0, 98, 99] 1 4 4 6).gap_end ∧
      (GapText.mk [97, 0, 0, 0, 98, 99] 1 4 4 6).gap_end ≤
        (GapText.mk [97, 0, 0, 0, 98, 99] 1 4 4 6).buf.length) ∧
    (GapText.content ((GapText.mk [97, 0, 0, 0, 98, 99] 1 4 4 6).get_str 0 2).2 =
        (GapText.mk [97, 0, 0, 0, 98, 99] 1 4 4 6).content ∧
      ((GapText.mk [97, 0, 0, 0, 98, 99] 1 4 4 6).get_str 0 2).2.gap_start =
        (GapText.mk [97, 0, 0, 0, 98, 99] 1 4 4 6).gap_start ∧
      ((GapText.mk [97, 0, 0, 0, 98, 99] 1 4 4 6).get_str 0 2).2.gap_end =
        (GapText.mk [97, 0, 0, 0, 98, 99] 1 4 4 6).gap_end ∧
      ((GapText.mk [97, 0, 0, 0, 98, 99] 1 4 4 6).get_str 0 2).2.len =
        (GapText.mk [97, 0, 0, 0, 98, 99] 1 4 4 6).len ∧
      ((GapText.mk [97, 0, 0, 0, 98, 99] 1 4 4 6).get_str 0 2).2.get 0 2 =
        (GapText.mk [97, 0, 0, 0, 98, 99] 1 4 4 6).get 0 2) :=
  ⟨⟨by decide, by decide⟩,
    C9_get_str_reads_are_pure (GapText.mk [97, 0, 0, 0, 98, 99] 1 4 4 6)
      (by decide) (by decide) 0 2⟩

/-- Claim C10: the structural invariant `gap.start ≤ gap.end ≤ buf.len()` is
not preserved: from the fresh buffer built from `"ab"`, the single public
call `delete(3..7)` returns `Ok` and leaves `gap = 3..7` on a 2-byte buffer,
so `gap_end > buf.length` (and `len()` underflows from then on). -/
theorem C10_wf_invariant_violated_by_delete :
    (GapText.new [97, 98]).delete 3 7 = Res.ok (GapText.mk [97, 98] 3 7 512 2) ∧
    ¬ (GapText.mk [97, 98] 3 7 512 2).gap_end ≤
        (GapText.mk [97, 98] 3 7 512 2).buf.length := by decide

end GapStr
